import Mathlib

/-!
Shallow embedding of `src/utils/nlpyutils.py` (module `nlpyutils` of the
NLP_Text_Mining repository) together with proofs about the claims on its
token-alignment and feature-extraction pipeline.

Conventions used throughout:
* Python exceptions (IndexError, KeyError) are modelled with `Except String`.
* Python dicts with a fixed literal key set are modelled as structures; the
  one dict with a genuinely missing key (`_voidtoken`, which omits
  `'typeclass'`) models that key as an `Option` that is `none` exactly when
  the key is absent, so that `token['typeclass']` is a fallible access.
* Python strings are Lean `String`s; character indexing, slicing and
  `str.find` are re-implemented below with Python's semantics (including
  negative indices and the IndexError on out-of-range reads).
* The external expert.ai service handle is passed in as explicit data: the
  knowledge-graph query `eai.kgraph.linked_syncons` becomes a function
  argument, and `doc` fields mirror the attributes the code reads.
-/

namespace Nlpyutils

/-- One analyzer token's dependency information (the code reads
`t.dependency.label`). -/
structure Dependency where
  label : String
deriving DecidableEq

/-- An expert.ai analyzer token: character span into the reconstructed text,
part-of-speech, dependency, syncon id (-1 = absent) and typeclass string. -/
structure EaiToken where
  start : Int
  stop : Int   -- the Python attribute `t.end` (`end` is a Lean keyword)
  pos : String
  dependency : Dependency
  syncon : Int
  typeclass : String
deriving DecidableEq

/-- One entry of `doc.knowledge._k`: a (syncon, label) pair. -/
structure KEntry where
  syncon : Int
  label : String
deriving DecidableEq

/-- The `doc.knowledge` object; `_k` is `none` when the attribute `_k` is
absent (the code guards with `hasattr(doc.knowledge, '_k')`). -/
structure Knowledge where
  _k : Option (List KEntry)
deriving DecidableEq

/-- An expert.ai `Document`: the fields read by the code. -/
structure Document where
  content : String
  tokens : List EaiToken
  knowledge : Knowledge
deriving DecidableEq

/-- Result of `eai.kgraph.linked_syncons`. -/
structure LinkedResult where
  max_records : Nat
  syncon_list : List Int
deriving DecidableEq

/-- Parameter dict passed to `eai.kgraph.linked_syncons`. -/
structure LinkParams where
  syncon : Int
  link_name : String
  direction : String
  level : Nat
deriving DecidableEq

/-- The knowledge-graph query capability of the `eai` handle:
`linked_syncons(params, offset, limit)`. -/
def KgraphFn : Type := LinkParams → Nat → Nat → LinkedResult

/-- The per-raw-token attribute dict built by `nlpy_features` /
`_voidtoken`.  `typeclass` is an `Option` because `_voidtoken` omits that
key, so reading it can raise `KeyError`. -/
structure TokenRec where
  word : String
  pos : String
  syncon : Int
  ancestor : Int
  dep : String
  label : String
  typeclass : Option (List String)
deriving DecidableEq

/-- A feature value: float (modelled exactly as a rational), string,
boolean, or list of strings (the typeclass components). -/
inductive FVal where
  | f (x : Rat)
  | s (x : String)
  | b (x : Bool)
  | ls (x : List String)
deriving DecidableEq

/-- A Python dict of features in insertion order.  All keys written by the
code are distinct string literals, so `dict.update` / item assignment is
list concatenation. -/
abbrev FeatureMap : Type := List (String × FVal)

/- ### Python string/list primitives -/

/-- Python `s[i]` character access: non-negative indices from the front,
negative indices from the back, `none` = IndexError. -/
def pyCharAt (s : String) (i : Int) : Option Char :=
  if 0 ≤ i then s.toList.get? i.toNat
  else if 0 ≤ i + s.length then s.toList.get? (i + (s.length : Int)).toNat
  else none

/-- Scan for Python `str.find`, made structural with a fuel argument.  The
fuel chosen by `pyFind` is an upper bound on the remaining scan positions:
when it reaches 0 the position `i` already exceeds `cs.length`, where the
scan would answer `-1` anyway, so the fuel never changes the result. -/
def pyFindFromAux (cs ts : List Char) : Nat → Nat → Int
  | 0, _ => -1
  | fuel + 1, i =>
    if i + ts.length ≤ cs.length then
      if ts.isPrefixOf (cs.drop i) then (i : Int)
      else pyFindFromAux cs ts fuel (i + 1)
    else -1

/-- Python `content.find(token, seek)`: a negative start is clamped to
`max(0, len + start)`; returns -1 when not found. -/
def pyFind (content token : String) (seek : Int) : Int :=
  let s : Nat := if seek < 0 then (seek + (content.length : Int)).toNat else seek.toNat
  pyFindFromAux content.toList token.toList (content.length + 1 - s) s

/-- Python `str.lower()` (ASCII model; core `String.map` is avoided because
its byte-position recursion does not reduce in the kernel). -/
def pyLower (s : String) : String := String.mk (s.toList.map Char.toLower)

/-- Python `c in s` for a single character. -/
def pyContains (s : String) (c : Char) : Bool := s.toList.contains c

/-- Worker for Python `str.split(sep)` with a single-character separator:
`acc` holds the current chunk reversed. -/
def pySplitAux (c : Char) : List Char → List Char → List (List Char)
  | [], acc => [acc.reverse]
  | x :: rest, acc =>
    if x = c then acc.reverse :: pySplitAux c rest []
    else pySplitAux c rest (x :: acc)

/-- Python `s.split(c)` (never returns an empty list; `''.split('.') = ['']`). -/
def pySplit (s : String) (c : Char) : List String :=
  (pySplitAux c s.toList []).map String.mk

/-- Python `sep.join(parts)`. -/
def pyJoin (sep : String) : List String → String
  | [] => ""
  | [s] => s
  | s :: rest => s ++ sep ++ pyJoin sep rest

/-- Python `s[-n:]`: the last `n` characters (whole string if shorter). -/
def pySliceLast (s : String) (n : Nat) : String :=
  String.mk (s.toList.drop (s.length - n))

/-- Python `s[:n]`: the first `n` characters. -/
def pySliceFirst (s : String) (n : Nat) : String :=
  String.mk (s.toList.take n)

/-- Python `str.isupper()`: at least one cased character and no lowercase
one (ASCII model). -/
def pyIsUpper (s : String) : Bool :=
  s.toList.any (fun c => c.isUpper || c.isLower) && s.toList.all (fun c => !c.isLower)

/-- Python `str.isdigit()` (ASCII model). -/
def pyIsDigit (s : String) : Bool :=
  !s.toList.isEmpty && s.toList.all Char.isDigit

/-- Worker for `pyIsTitle`: tracks whether the previous character was cased
and whether any cased character has been seen. -/
def pyIsTitleGo : List Char → Bool → Bool → Bool
  | [], _, seenCased => seenCased
  | c :: rest, prevCased, seenCased =>
    if c.isUpper then
      if prevCased then false else pyIsTitleGo rest true true
    else if c.isLower then
      if prevCased then pyIsTitleGo rest true seenCased else false
    else pyIsTitleGo rest false seenCased

/-- Python `str.istitle()` (ASCII model). -/
def pyIsTitle (s : String) : Bool := pyIsTitleGo s.toList false false

/-- Python `l[i]` on lists: negative indices count from the back, `none` =
IndexError. -/
def pyGet {α : Type} (l : List α) (i : Int) : Option α :=
  if 0 ≤ i then l.get? i.toNat
  else if 0 ≤ i + l.length then l.get? (i + (l.length : Int)).toNat
  else none

/- ### `tokens_to_docs_safe` (lines 30-54) -/

/-- Python `' '.join(sent)`. -/
def joinTokens (sent : List String) : String := pyJoin " " sent

deriving instance DecidableEq for Except

/-- Loop body of `tokens_to_docs_safe`, with the running `enumerate` index
made explicit.  A raised `eai.analyze` exception is an `Except.error`:
the sentence's index goes to `errors`, successful docs are appended in
order. -/
def ttds_go (analyze : String → Except Unit Document) :
    List (List String) → Nat → List Document × List Nat
  | [], _ => ([], [])
  | sent :: rest, idx =>
    match analyze (joinTokens sent) with
    | Except.ok d =>
      let r := ttds_go analyze rest (idx + 1)
      (d :: r.1, r.2)
    | Except.error _ =>
      let r := ttds_go analyze rest (idx + 1)
      (r.1, idx :: r.2)

/-- `tokens_to_docs_safe(raw, eai)`: returns `(docs, errors)`.  The
`print` of the error count is a side effect outside the embedding. -/
def tokens_to_docs_safe (raw : List (List String))
    (analyze : String → Except Unit Document) : List Document × List Nat :=
  ttds_go analyze raw 0

/- ### `_voidtoken` (lines 57-67) -/

/-- `_voidtoken()`: the sentinel record for an unmatched raw token.  Note
that the Python dict has NO `'typeclass'` key, hence `typeclass := none`. -/
def _voidtoken : TokenRec :=
  { word := "", pos := "", syncon := -1, ancestor := -1, dep := "", label := "",
    typeclass := none }

/- ### `_get_ancestor` (lines 70-82) -/

/-- The `params` dict built on lines 75-77. -/
def ancestorParams (syncon : Int) : LinkParams :=
  { syncon := syncon, link_name := "supernomen/subnomen",
    direction := "from", level := 1 }

/-- `_get_ancestor(syncon, eai)`.  Besides the result (`Except` because
`ancestor.syncon_list[0]` can raise IndexError), the second component logs
every `linked_syncons` query issued, so that "no lookup" / "exactly one
lookup" are provable statements.  The single query result `ancestor` is
written out twice below (the query function is pure). -/
def _get_ancestor (kg : KgraphFn) (syncon : Int) :
    Except String Int × List (LinkParams × Nat × Nat) :=
  if syncon = -1 then (Except.ok (-1), [])
  else if (kg (ancestorParams syncon) 0 1).max_records = 0 then
    (Except.ok (-1), [(ancestorParams syncon, 0, 1)])
  else
    match (kg (ancestorParams syncon) 0 1).syncon_list with
    | [] => (Except.error "IndexError", [(ancestorParams syncon, 0, 1)])
    | x :: _ => (Except.ok x, [(ancestorParams syncon, 0, 1)])

/- ### `_get_label` (lines 85-95) -/

/-- The `for ent in doc.knowledge._k: ... break` scan: label of the first
entry whose syncon matches, else `''`. -/
def scan_k : List KEntry → Int → String
  | [], _ => ""
  | ent :: rest, syncon =>
    if ent.syncon = syncon then ent.label else scan_k rest syncon

/-- `_get_label(doc, syncon)`: first matching entry's label, reduced to the
part after the last `'.'` when non-empty and containing a dot. -/
def _get_label (doc : Document) (syncon : Int) : String :=
  match doc.knowledge._k with
  | none => ""
  | some k =>
    let label := scan_k k syncon
    if label ≠ "" ∧ pyContains label '.' then (pySplit label '.').getLastD ""
    else label

/- ### `nlpy_features` (lines 98-156) -/

/-- Fuel-structural worker for `skipSpaces`.  The fuel chosen by
`skipSpaces` is an upper bound on the loop steps: it reaches 0 only when
`seek > content.length`, where `content[seek]` is an IndexError anyway, so
the fuel never changes the result. -/
def skipSpacesAux (content : String) : Nat → Int → Except String Int
  | 0, _ => Except.error "string index out of range"
  | fuel + 1, seek =>
    match pyCharAt content seek with
    | none => Except.error "string index out of range"
    | some c => if c = ' ' then skipSpacesAux content fuel (seek + 1) else Except.ok seek

/-- The seek advance after a matched span (lines 153-154):
`while docs[sent_idx].content[seek] == ' ': seek += 1`.
The loop reads `content[seek]` before any bound check, so reaching the end
of the string is an IndexError, exactly as in Python. -/
def skipSpaces (content : String) (seek : Int) : Except String Int :=
  skipSpacesAux content (((content.length : Int) + 1) - seek).toNat seek

/-- The overlap test of lines 130-132: the analyzer token `t` is a
candidate for the raw span `[index_start, index_end]`. -/
def overlaps (index_start index_end : Int) (t : EaiToken) : Bool :=
  (t.start ≤ index_start && t.stop ≥ index_end) ||
  (t.start ≥ index_start && t.start ≤ index_end) ||
  (t.stop ≥ index_start && t.stop ≤ index_end)

/-- `a` sorts before `b` under `sort(key=lambda t: t.syncon, reverse=True)`. -/
def tkGE (a b : EaiToken) : Prop := b.syncon ≤ a.syncon

instance : DecidableRel tkGE := fun a b => Int.decLe b.syncon a.syncon

/-- Python's `list.sort` is stable; for a total preorder on the keys any
stable sort computes the same list, so insertion sort (stable for `tkGE`)
models `possible_tokens.sort(key=lambda t: t.syncon, reverse=True)`. -/
def pySortSynconDesc (l : List EaiToken) : List EaiToken :=
  List.insertionSort tkGE l

/-- Lines 140-144: sort (only when more than one candidate) and take
`possible_tokens[0]`; `none` would be Python's IndexError on `[0]`. -/
def selectToken (possible_tokens : List EaiToken) : Option EaiToken :=
  (if possible_tokens.length > 1 then pySortSynconDesc possible_tokens
   else possible_tokens).head?

/-- The body of the inner loop of `nlpy_features` for one raw token,
lines 122-154, threading the `seek` cursor. -/
def sentence_loop (doc : Document) (kg : KgraphFn) :
    List String → Int → Except String (List TokenRec)
  | [], _ => Except.ok []
  | token :: rest, seek =>
    let index_start := pyFind doc.content token seek
    let index_end := index_start + (token.length : Int)
    let possible_tokens := doc.tokens.filter (overlaps index_start index_end)
    match
      (if possible_tokens.isEmpty then
        -- line 135 prints a diagnostic; the sentinel record is appended
        Except.ok _voidtoken
      else
        match selectToken possible_tokens with
        | none => Except.error "IndexError"
        | some p0 =>
          match (_get_ancestor kg p0.syncon).1 with
          | Except.error e => Except.error e
          | Except.ok anc =>
            Except.ok
              { word := token, pos := p0.pos, syncon := p0.syncon,
                ancestor := anc, label := _get_label doc p0.syncon,
                dep := p0.dependency.label,
                typeclass := some (pySplit p0.typeclass '.') }) with
    | Except.error e => Except.error e
    | Except.ok tkrec =>
      match skipSpaces doc.content index_end with
      | Except.error e => Except.error e
      | Except.ok seek2 =>
        match sentence_loop doc kg rest seek2 with
        | Except.error e => Except.error e
        | Except.ok recs => Except.ok (tkrec :: recs)

/-- The outer loop of `nlpy_features`: `docs[sent_idx]` is accessed by the
running index, so a missing document is an IndexError. -/
def nlpy_features_go (kg : KgraphFn) :
    List (List String) → List Document → Except String (List (List TokenRec))
  | [], _ => Except.ok []
  | sent :: rest, docs =>
    match docs with
    | [] => Except.error "IndexError"
    | doc :: drest =>
      match sentence_loop doc kg sent 0 with
      | Except.error e => Except.error e
      | Except.ok recs =>
        match nlpy_features_go kg rest drest with
        | Except.error e => Except.error e
        | Except.ok others => Except.ok (recs :: others)

/-- `nlpy_features(sentences, docs, eai)` (the `eai` handle contributes its
knowledge-graph query function). -/
def nlpy_features (sentences : List (List String)) (docs : List Document)
    (kg : KgraphFn) : Except String (List (List TokenRec)) :=
  nlpy_features_go kg sentences docs

/- ### `_nlpy_word_features` (lines 159-216) -/

/-- The own-token feature dict literal of lines 163-179, given the value of
`token['typeclass']`. -/
def base_features (token : TokenRec) (tclass : List String) : FeatureMap :=
  [("bias", FVal.f 1),
   ("word.lower()", FVal.s (pyLower token.word)),
   ("word[-3:]", FVal.s (pySliceLast token.word 3)),
   ("word[-2:]", FVal.s (pySliceLast token.word 2)),
   ("word.isupper()", FVal.b (pyIsUpper token.word)),
   ("word.istitle()", FVal.b (pyIsTitle token.word)),
   ("word.isdigit()", FVal.b (pyIsDigit token.word)),
   ("nlpy.postag", FVal.s token.pos),
   ("nlpy.postag[:2]", FVal.s (pySliceFirst token.pos 2)),
   ("nlpy.deptag", FVal.s token.dep),
   ("nlpy.deptag[-2:]", FVal.s (pySliceLast token.dep 2)),
   ("nlpy.syncon",
     if token.syncon = -1 then FVal.f (-1) else FVal.f ((token.syncon : Rat) / 10000)),
   ("nlpy.ancestor",
     if token.ancestor = -1 then FVal.f (-1) else FVal.f ((token.ancestor : Rat) / 10000)),
   ("nlpy.labels", FVal.s token.label),
   ("nlpy.typeclass", FVal.ls tclass)]

/-- The `-1:` neighbour block of lines 182-194 (commented-out entries of
the source are omitted, as in the code). -/
def prev_features (token1 : TokenRec) (tclass1 : List String) : FeatureMap :=
  [("-1:word.lower()", FVal.s (pyLower token1.word)),
   ("-1:word.istitle()", FVal.b (pyIsTitle token1.word)),
   ("-1:word.isupper()", FVal.b (pyIsUpper token1.word)),
   ("-1:nlpy.postag", FVal.s token1.pos),
   ("-1:nlpy.deptag", FVal.s token1.dep),
   ("-1:nlpy.labels", FVal.s token1.label),
   ("-1:nlpy.typeclass", FVal.ls tclass1)]

/-- The `+1:` neighbour block of lines 200-212. -/
def next_features (token1 : TokenRec) (tclass1 : List String) : FeatureMap :=
  [("+1:word.lower()", FVal.s (pyLower token1.word)),
   ("+1:word.istitle()", FVal.b (pyIsTitle token1.word)),
   ("+1:word.isupper()", FVal.b (pyIsUpper token1.word)),
   ("+1:nlpy.postag", FVal.s token1.pos),
   ("+1:nlpy.deptag", FVal.s token1.dep),
   ("+1:nlpy.labels", FVal.s token1.label),
   ("+1:nlpy.typeclass", FVal.ls tclass1)]

/-- `_nlpy_word_features(sentence, idx)`.  Fallible accesses are modelled:
`sentence.get?`/`pyGet` for list indexing and the `Option` typeclass field
for the missing `'typeclass'` key of sentinel records.  NOTE: faithfully to
line 199, the `+1:` block reads `sentence[idx-1]` (for `idx = 0` that is
Python's `sentence[-1]`, the last record). -/
def _nlpy_word_features (sentence : List TokenRec) (idx : Nat) :
    Except String FeatureMap :=
  match sentence.get? idx with
  | none => Except.error "IndexError"
  | some token =>
    match token.typeclass with
    | none => Except.error "KeyError: typeclass"
    | some tclass =>
      match
        (if 0 < idx then
          match pyGet sentence ((idx : Int) - 1) with
          | none => Except.error "IndexError"
          | some token1 =>
            match token1.typeclass with
            | none => Except.error "KeyError: typeclass"
            | some tclass1 =>
              Except.ok (base_features token tclass ++ prev_features token1 tclass1)
        else
          Except.ok (base_features token tclass ++ [("BOS", FVal.b true)])) with
      | Except.error e => Except.error e
      | Except.ok features1 =>
        if (idx : Int) < (sentence.length : Int) - 1 then
          match pyGet sentence ((idx : Int) - 1) with
          | none => Except.error "IndexError"
          | some token1 =>
            match token1.typeclass with
            | none => Except.error "KeyError: typeclass"
            | some tclass1 =>
              Except.ok (features1 ++ next_features token1 tclass1)
        else
          Except.ok (features1 ++ [("EOS", FVal.b true)])

/- ### `nlpy_sentence_features` (lines 219-221) -/

/-- Sequential effectful map, the semantics of
`tuple(f(i) for i in range(n))`: the first raised exception propagates. -/
def mapExcept {α β : Type} (f : α → Except String β) :
    List α → Except String (List β)
  | [] => Except.ok []
  | a :: rest =>
    match f a with
    | Except.error e => Except.error e
    | Except.ok b =>
      match mapExcept f rest with
      | Except.error e => Except.error e
      | Except.ok bs => Except.ok (b :: bs)

/-- `nlpy_sentence_features(sentence)`. -/
def nlpy_sentence_features (sentence : List TokenRec) :
    Except String (List FeatureMap) :=
  mapExcept (_nlpy_word_features sentence) (List.range sentence.length)

/- ### Specification-side definitions (for refinement comparisons) -/

/-- Label resolution as the spec words it: first entry of the knowledge set
whose concept id equals the target (empty string when none / no set), with
a namespaced label collapsed to its leaf after the last `.`. -/
def get_label_spec (doc : Document) (syncon : Int) : String :=
  match doc.knowledge._k with
  | none => ""
  | some k =>
    match k.find? (fun e => e.syncon == syncon) with
    | none => ""
    | some e =>
      if pyContains e.label '.' then (pySplit e.label '.').getLastD "" else e.label

/-- The spec's candidate-selection rule, stated directly: scan candidates
left to right, keeping the current token unless a strictly larger syncon
appears, so the first-encountered among the largest-syncon tokens wins. -/
def firstMaxTk (best : EaiToken) : List EaiToken → EaiToken
  | [] => best
  | u :: rest =>
    if best.syncon < u.syncon then firstMaxTk u rest else firstMaxTk best rest

/- ### Concrete instances used by the claim theorems and witnesses -/

/-- A knowledge-graph stub returning no records. -/
def kgEmpty : KgraphFn := fun _ _ _ => ⟨0, []⟩

/-- A knowledge-graph stub with one ancestor (99) for syncon 7. -/
def kgW : KgraphFn := fun p _ _ => if p.syncon = 7 then ⟨1, [99]⟩ else ⟨0, []⟩

/-- Well-formed analyzed document for the raw sentence `["cats"]`: content
is the tokens joined by single spaces and the analyzer span covers it. -/
def docCats : Document :=
  { content := "cats", tokens := [⟨0, 4, "NOUN", ⟨"root"⟩, 5, "NOU.X"⟩],
    knowledge := ⟨none⟩ }

/-- Well-formed analyzed document for the raw sentence `["a"]`. -/
def docA : Document := { content := "a", tokens := [], knowledge := ⟨none⟩ }

/-- A document whose content extends past the last raw token's span, so the
trailing-space skip stops on `'!'` and `nlpy_features` returns normally. -/
def docHi : Document :=
  { content := "hi!", tokens := [⟨0, 2, "X", ⟨"d"⟩, -1, "T.Y"⟩], knowledge := ⟨none⟩ }

/-- The attribute record `nlpy_features` builds for `docHi`. -/
def recHi : TokenRec :=
  { word := "hi", pos := "X", syncon := -1, ancestor := -1, dep := "d", label := "",
    typeclass := some ["T", "Y"] }

/-- Knowledge set with a namespaced label for syncon 42 (spec test case). -/
def doc42 : Document :=
  { content := "", tokens := [], knowledge := ⟨some [⟨42, "foo.bar.baz"⟩]⟩ }

/-- Knowledge set containing an entry whose concept id is -1. -/
def docNegEx : Document :=
  { content := "", tokens := [], knowledge := ⟨some [⟨-1, "x"⟩]⟩ }

/-- Distinctly-worded attribute records for neighbour-feature tests. -/
def recAA : TokenRec :=
  { word := "aa", pos := "PA", syncon := 1, ancestor := -1, dep := "DA", label := "LA",
    typeclass := some ["aa"] }

def recBB : TokenRec :=
  { word := "bb", pos := "PB", syncon := 1, ancestor := -1, dep := "DB", label := "LB",
    typeclass := some ["bb"] }

def recCC : TokenRec :=
  { word := "cc", pos := "PC", syncon := 1, ancestor := -1, dep := "DC", label := "LC",
    typeclass := some ["cc"] }

/-- The feature map of the single-token sentence `[recHi]`. -/
def fmHi : FeatureMap :=
  (base_features recHi ["T", "Y"] ++ [("BOS", FVal.b true)]) ++ [("EOS", FVal.b true)]

/-- Feature map of index 0 of `[recAA, recBB, recCC]` (the `+1:` block reads
`sentence[-1]` = recCC there, line 199's indexing). -/
def fmA0 : FeatureMap :=
  (base_features recAA ["aa"] ++ [("BOS", FVal.b true)]) ++ next_features recCC ["cc"]

/-- Feature map of index 1 of `[recAA, recBB, recCC]` (both neighbour blocks
read `sentence[idx-1]` = recAA). -/
def fmB1 : FeatureMap :=
  (base_features recBB ["bb"] ++ prev_features recAA ["aa"]) ++ next_features recAA ["aa"]

/-- Feature map of index 2 (the last) of `[recAA, recBB, recCC]`. -/
def fmC2 : FeatureMap :=
  (base_features recCC ["cc"] ++ prev_features recBB ["bb"]) ++ [("EOS", FVal.b true)]

/-- Analyzer tokens for the tie-break test: syncons 5, 9, 9. -/
def tk5 : EaiToken := ⟨0, 1, "a", ⟨"d"⟩, 5, "t"⟩

def tk9b : EaiToken := ⟨0, 1, "b", ⟨"d"⟩, 9, "t"⟩

def tk9c : EaiToken := ⟨0, 1, "c", ⟨"d"⟩, 9, "t"⟩

/-- `analyze` stub for the safe-mode test: fails exactly on content `"c"`. -/
def exAnalyze : String → Except Unit Document :=
  fun s => if s = "c" then Except.error () else Except.ok ⟨s, [], ⟨none⟩⟩

/- ### Helper lemmas -/

/-- The `for ... break` scan of `_get_label` is `List.find?` on the syncon. -/
theorem scan_k_eq_find (k : List KEntry) (s : Int) :
    scan_k k s =
      (match k.find? (fun e => e.syncon == s) with
       | none => ""
       | some e => e.label) := by
  induction k with
  | nil => rfl
  | cons ent rest ih =>
    by_cases h : ent.syncon = s
    · simp [scan_k, List.find?_cons, h]
    · simp [scan_k, List.find?_cons, h, ih]

/-- `_get_label` agrees with the spec's description of label resolution. -/
theorem get_label_eq_spec (doc : Document) (s : Int) :
    _get_label doc s = get_label_spec doc s := by
  unfold _get_label get_label_spec
  cases doc.knowledge._k with
  | none => rfl
  | some k =>
    dsimp only
    rw [scan_k_eq_find]
    cases hf : k.find? (fun e => e.syncon == s) with
    | none => simp
    | some e =>
      by_cases hc : pyContains e.label '.'
      · by_cases he : e.label = ""
        · rw [he] at hc
          exact absurd hc (by decide)
        · simp [hc, he]
      · simp [hc]

/-- Closed form of the `tokens_to_docs_safe` loop at any starting index. -/
theorem ttds_go_eq (analyze : String → Except Unit Document) :
    ∀ (l : List (List String)) (idx : Nat),
      ttds_go analyze l idx =
        (l.filterMap (fun sent => (analyze (joinTokens sent)).toOption),
         ((l.enumFrom idx).filter
            (fun p => !(analyze (joinTokens p.2)).toOption.isSome)).map Prod.fst) := by
  intro l
  induction l with
  | nil => intro idx; rfl
  | cons sent rest ih =>
    intro idx
    cases ha : analyze (joinTokens sent) with
    | ok d => simp [ttds_go, ha, List.enumFrom, ih, Except.toOption]
    | error e => simp [ttds_go, ha, List.enumFrom, ih, Except.toOption]

/- ### Claim theorems -/

/-- C1: the claim says the trailing-space skip stops at end-of-string and
never indexes the reconstructed text at or past its length.  The code does
the opposite: on the well-formed sentence `["cats"]` (content `"cats"`,
analyzer span (0,4)) the skip reads `content[4]` on a length-4 string and
the whole of `nlpy_features` raises IndexError. -/
theorem C1_seek_skip_reads_past_end :
    nlpy_features [["cats"]] [docCats] kgEmpty =
      Except.error "string index out of range" ∧
    skipSpaces docCats.content 4 = Except.error "string index out of range" ∧
    pyCharAt docCats.content 4 = none := by decide

/-- C2: the claim says feature assembly is total on sentinel records.  It
is not: `_voidtoken` has no `'typeclass'` key, so `token['typeclass']`
raises KeyError — when the sentinel is the token itself and when it is the
accessed neighbour. -/
theorem C2_sentinel_assembly_raises :
    _nlpy_word_features [_voidtoken] 0 = Except.error "KeyError: typeclass" ∧
    nlpy_sentence_features [_voidtoken] = Except.error "KeyError: typeclass" ∧
    _nlpy_word_features [recAA, _voidtoken] 0 = Except.error "KeyError: typeclass" := by
  decide

/-- C3: the claim says the `+1:` features copy the token at index+1.  The
code re-reads `sentence[idx-1]`: at index 1 of `[recAA, recBB, recCC]` the
`+1:` lowercase-word equals recAA's word (the left neighbour), not recCC's;
at index 0 it even wraps to `sentence[-1]` = recCC. -/
theorem C3_right_neighbor_from_previous_index :
    (_nlpy_word_features [recAA, recBB, recCC] 1).toOption.bind
        (fun fm => fm.lookup "+1:word.lower()") = some (FVal.s (pyLower recAA.word)) ∧
    (_nlpy_word_features [recAA, recBB, recCC] 1).toOption.bind
        (fun fm => fm.lookup "+1:word.lower()") ≠ some (FVal.s (pyLower recCC.word)) ∧
    (_nlpy_word_features [recAA, recBB, recCC] 0).toOption.bind
        (fun fm => fm.lookup "+1:word.lower()") = some (FVal.s (pyLower recCC.word)) := by
  decide

/-- C4 counterexample: with a knowledge entry whose concept id is -1,
`_get_label` at target -1 scans the set and returns that entry's label
instead of short-circuiting to the empty string. -/
theorem C4_counterexample_minus_one_is_scanned :
    _get_label docNegEx (-1) = "x" ∧ _get_label docNegEx (-1) ≠ "" := by decide

/-- C4 amended: label resolution with target -1 does not short-circuit; it
scans the knowledge annotation set exactly as for any other target (first
entry with concept id -1, leaf label; empty string when none). -/
theorem C4_minus_one_scans_like_any_target (doc : Document) :
    _get_label doc (-1) = get_label_spec doc (-1) :=
  get_label_eq_spec doc (-1)

/-- C6: safe mode returns the successful documents in original relative
order and the original indices of the failing sentences, failures
isolated; over 5 sentences where only index 2 fails it returns 4 documents
and failure indices [2]. -/
theorem C6_safe_mode_contract :
    (∀ (raw : List (List String)) (analyze : String → Except Unit Document),
       (tokens_to_docs_safe raw analyze).1 =
         raw.filterMap (fun sent => (analyze (joinTokens sent)).toOption) ∧
       (tokens_to_docs_safe raw analyze).2 =
         ((raw.enum.filter
             (fun p => !(analyze (joinTokens p.2)).toOption.isSome)).map Prod.fst)) ∧
    (tokens_to_docs_safe [["a"], ["b"], ["c"], ["d"], ["e"]] exAnalyze).1.length = 4 ∧
    (tokens_to_docs_safe [["a"], ["b"], ["c"], ["d"], ["e"]] exAnalyze).2 = [2] := by
  refine ⟨fun raw analyze => ?_, by decide, by decide⟩
  have h := ttds_go_eq analyze raw 0
  unfold tokens_to_docs_safe
  rw [h]
  exact ⟨rfl, rfl⟩

/-- C8: `_get_ancestor` at -1 answers -1 with no query; otherwise it issues
exactly the one `linked_syncons` query (supernomen/subnomen, from, level 1,
offset 0, limit 1), answering -1 on zero records and else the first
returned syncon. -/
theorem C8_ancestor_contract (kg : KgraphFn) (s : Int) (hs : s ≠ -1) :
    _get_ancestor kg (-1) = (Except.ok (-1), []) ∧
    (_get_ancestor kg s).2 = [(ancestorParams s, 0, 1)] ∧
    ((kg (ancestorParams s) 0 1).max_records = 0 →
       (_get_ancestor kg s).1 = Except.ok (-1)) ∧
    (∀ x xs, (kg (ancestorParams s) 0 1).syncon_list = x :: xs →
       (kg (ancestorParams s) 0 1).max_records ≠ 0 →
       (_get_ancestor kg s).1 = Except.ok x) := by
  refine ⟨rfl, ?_, ?_, ?_⟩
  · unfold _get_ancestor
    rw [if_neg hs]
    split_ifs with h
    · rfl
    · split <;> rfl
  · intro h0
    unfold _get_ancestor
    rw [if_neg hs, if_pos h0]
  · intro x xs hlist hne
    unfold _get_ancestor
    rw [if_neg hs, if_neg hne, hlist]

/-- C8 witness: concrete knowledge-graph stubs exercising both the
zero-record case and the one-ancestor case. -/
theorem C8_witness :
    (7 : Int) ≠ -1 ∧ (8 : Int) ≠ -1 ∧
    _get_ancestor kgW (-1) = (Except.ok (-1), []) ∧
    (_get_ancestor kgW 7).2 = [(ancestorParams 7, 0, 1)] ∧
    (_get_ancestor kgW 7).1 = Except.ok 99 ∧
    (_get_ancestor kgEmpty 8).1 = Except.ok (-1) := by
  have h7 := C8_ancestor_contract kgW 7 (by decide)
  have h8 := C8_ancestor_contract kgEmpty 8 (by decide)
  exact ⟨by decide, by decide, h7.1, h7.2.1,
    h7.2.2.2 99 [] (by decide) (by decide), h8.2.2.1 (by decide)⟩

/- ### Tie-break selection lemmas (C7) -/

theorem firstMaxTk_cons_def (a b : EaiToken) (l : List EaiToken) :
    firstMaxTk a (b :: l) =
      if a.syncon < b.syncon then firstMaxTk b l else firstMaxTk a l := rfl

/-- Accumulator recursion of `firstMaxTk` rephrased as a comparison of the
seed against the first-max of the tail. -/
theorem firstMaxTk_acc (t : List EaiToken) :
    ∀ a b, firstMaxTk a (b :: t) =
      if (firstMaxTk b t).syncon ≤ a.syncon then a else firstMaxTk b t := by
  induction t with
  | nil =>
    intro a b
    rw [firstMaxTk_cons_def]
    simp only [firstMaxTk]
    split_ifs <;> first | rfl | omega
  | cons c t ih =>
    intro a b
    rw [firstMaxTk_cons_def, ih b c, ih a c]
    by_cases h1 : a.syncon < b.syncon <;>
      by_cases h2 : (firstMaxTk c t).syncon ≤ b.syncon <;>
      by_cases h3 : (firstMaxTk c t).syncon ≤ a.syncon <;>
      by_cases h4 : b.syncon ≤ a.syncon <;>
      simp [h1, h2, h3, h4] <;>
      first | rfl | omega

theorem orderedInsert_head (a m : EaiToken) (s' : List EaiToken) :
    (List.orderedInsert tkGE a (m :: s')).head? =
      some (if m.syncon ≤ a.syncon then a else m) := by
  by_cases h : m.syncon ≤ a.syncon
  · have h' : tkGE a m := h
    simp only [List.orderedInsert]
    rw [if_pos h', if_pos h]
    rfl
  · have h' : ¬tkGE a m := h
    simp only [List.orderedInsert]
    rw [if_neg h', if_neg h]
    rfl

/-- The head of the stable descending-by-syncon sort is the first token
attaining the maximal syncon. -/
theorem insertionSort_head (l : List EaiToken) :
    ∀ a, (List.insertionSort tkGE (a :: l)).head? = some (firstMaxTk a l) := by
  induction l with
  | nil => intro a; rfl
  | cons b t ih =>
    intro a
    have hstep : List.insertionSort tkGE (a :: b :: t) =
        List.orderedInsert tkGE a (List.insertionSort tkGE (b :: t)) := rfl
    rw [hstep]
    have hs := ih b
    cases hsort : List.insertionSort tkGE (b :: t) with
    | nil => rw [hsort] at hs; simp at hs
    | cons m s' =>
      rw [hsort] at hs
      have hm : m = firstMaxTk b t := by simpa using hs
      rw [orderedInsert_head, firstMaxTk_acc t a b, ← hm]

theorem firstMaxTk_mem (l : List EaiToken) :
    ∀ a, firstMaxTk a l = a ∨ firstMaxTk a l ∈ l := by
  induction l with
  | nil => intro a; exact Or.inl rfl
  | cons u rest ih =>
    intro a
    rw [firstMaxTk_cons_def]
    split_ifs with h
    · rcases ih u with h1 | h1
      · exact Or.inr (by rw [h1]; exact List.mem_cons_self u rest)
      · exact Or.inr (List.mem_cons_of_mem u h1)
    · rcases ih a with h1 | h1
      · exact Or.inl h1
      · exact Or.inr (List.mem_cons_of_mem u h1)

theorem firstMaxTk_max (l : List EaiToken) :
    ∀ a, a.syncon ≤ (firstMaxTk a l).syncon ∧
      ∀ u ∈ l, u.syncon ≤ (firstMaxTk a l).syncon := by
  induction l with
  | nil => intro a; exact ⟨le_refl _, by simp⟩
  | cons u rest ih =>
    intro a
    rw [firstMaxTk_cons_def]
    split_ifs with h
    · obtain ⟨h1, h2⟩ := ih u
      refine ⟨by omega, ?_⟩
      intro v hv
      rcases List.mem_cons.mp hv with rfl | hv
      · exact h1
      · exact h2 v hv
    · obtain ⟨h1, h2⟩ := ih a
      refine ⟨h1, ?_⟩
      intro v hv
      rcases List.mem_cons.mp hv with rfl | hv
      · omega
      · exact h2 v hv

/-- The first-max either is the seed itself or strictly beats it. -/
theorem firstMaxTk_seed (l : List EaiToken) :
    ∀ a, firstMaxTk a l = a ∨ a.syncon < (firstMaxTk a l).syncon := by
  induction l with
  | nil => intro a; exact Or.inl rfl
  | cons u rest ih =>
    intro a
    rw [firstMaxTk_cons_def]
    split_ifs with h
    · right
      have := (firstMaxTk_max rest u).1
      omega
    · exact ih a

/-- First-encounter property: the selected token occurs at or before any
position whose syncon attains the maximum. -/
theorem firstMaxTk_first (l : List EaiToken) :
    ∀ a i u, (a :: l).get? i = some u →
      u.syncon = (firstMaxTk a l).syncon →
      firstMaxTk a l ∈ (a :: l).take (i + 1) := by
  induction l with
  | nil =>
    intro a i u hget hu
    cases i with
    | zero =>
      have hu' : a = u := by simpa using hget
      subst hu'
      simp [firstMaxTk]
    | succ j => simp at hget
  | cons b t ih =>
    intro a i u hget hu
    cases i with
    | zero =>
      have hu' : a = u := by simpa using hget
      subst hu'
      rw [firstMaxTk_cons_def] at hu ⊢
      split_ifs with h
      · rw [if_pos h] at hu
        exfalso
        have h1 := (firstMaxTk_max t b).1
        omega
      · rw [if_neg h] at hu
        rcases firstMaxTk_seed t a with h1 | h1
        · rw [h1]; simp
        · exfalso; omega
    | succ j =>
      have hget' : (b :: t).get? j = some u := by simpa using hget
      rw [firstMaxTk_cons_def] at hu ⊢
      split_ifs with h
      · rw [if_pos h] at hu
        have hmem := ih b j u hget' hu
        rw [List.take_succ_cons]
        exact List.mem_cons_of_mem a hmem
      · rw [if_neg h] at hu
        cases j with
        | zero =>
          have hub : b = u := by simpa using hget'
          subst hub
          rcases firstMaxTk_seed t a with h1 | h1
          · rw [h1]; simp
          · exfalso; omega
        | succ k =>
          have hgt : t.get? k = some u := by simpa using hget'
          have hat : (a :: t).get? (k + 1) = some u := by simpa using hgt
          have hmem := ih a (k + 1) u hat hu
          rw [List.take_succ_cons] at hmem
          rcases List.mem_cons.mp hmem with h1 | h1
          · rw [h1]; simp
          · rw [List.take_succ_cons, List.take_succ_cons]
            exact List.mem_cons_of_mem a (List.mem_cons_of_mem b h1)

/-- C7: among overlapping candidates the selection takes the token with the
numerically largest syncon, and among equal largest syncons the
first-encountered one (stable sort head = first-max of the scan). -/
theorem C7_largest_syncon_first_encountered (t0 : EaiToken) (rest : List EaiToken) :
    selectToken (t0 :: rest) = some (firstMaxTk t0 rest) ∧
    (firstMaxTk t0 rest = t0 ∨ firstMaxTk t0 rest ∈ rest) ∧
    (∀ u ∈ t0 :: rest, u.syncon ≤ (firstMaxTk t0 rest).syncon) ∧
    (∀ i u, (t0 :: rest).get? i = some u →
       u.syncon = (firstMaxTk t0 rest).syncon →
       firstMaxTk t0 rest ∈ (t0 :: rest).take (i + 1)) := by
  refine ⟨?_, firstMaxTk_mem rest t0, ?_, firstMaxTk_first rest t0⟩
  · cases rest with
    | nil => rfl
    | cons b t =>
      unfold selectToken pySortSynconDesc
      rw [if_pos (by simp)]
      exact insertionSort_head (b :: t) t0
  · intro u hu
    rcases List.mem_cons.mp hu with rfl | hu
    · exact (firstMaxTk_max rest u).1
    · exact (firstMaxTk_max rest t0).2 u hu

/-- C7 witness: syncons 5, 9, 9 — the first of the two 9s is selected. -/
theorem C7_witness :
    selectToken [tk5, tk9b, tk9c] = some tk9b ∧
    tk9b ∈ ([tk5, tk9b, tk9c].take 2) ∧
    (∀ u ∈ [tk5, tk9b, tk9c], u.syncon ≤ tk9b.syncon) := by
  have h := C7_largest_syncon_first_encountered tk5 [tk9b, tk9c]
  have hfm : firstMaxTk tk5 [tk9b, tk9c] = tk9b := by decide
  refine ⟨?_, ?_, ?_⟩
  · rw [← hfm]; exact h.1
  · have hmem := h.2.2.2 1 tk9b (by decide) (by rw [hfm])
    rwa [hfm] at hmem
  · intro u hu
    have hle := h.2.2.1 u hu
    rwa [hfm] at hle

/- ### Count/order invariants of the pipeline (C5) -/

/-- The inner loop yields exactly one record per raw token when it returns
normally, and record `j` is either the matched record for token `j` (same
word) or the sentinel. -/
theorem sentence_loop_ok (doc : Document) (kg : KgraphFn) :
    ∀ (tokens : List String) (seek : Int) (recs : List TokenRec),
      sentence_loop doc kg tokens seek = Except.ok recs →
      recs.length = tokens.length ∧
      ∀ j r tok, recs.get? j = some r → tokens.get? j = some tok →
        r.word = tok ∨ r = _voidtoken := by
  intro tokens
  induction tokens with
  | nil =>
    intro seek recs h
    simp only [sentence_loop, Except.ok.injEq] at h
    subst h
    exact ⟨rfl, by intro j r tok h1 _; simp at h1⟩
  | cons token rest ih =>
    intro seek recs h
    rw [sentence_loop] at h
    split at h
    · exact absurd h (by simp)
    · rename_i tkrec heq1
      split at h
      · exact absurd h (by simp)
      · rename_i seek2 heq2
        split at h
        · exact absurd h (by simp)
        · rename_i recs' heq3
          simp only [Except.ok.injEq] at h
          subst h
          obtain ⟨ihlen, ihidx⟩ := ih seek2 recs' heq3
          refine ⟨by simp [ihlen], ?_⟩
          intro j r tok hr ht
          cases j with
          | zero =>
            simp only [List.get?_cons_zero, Option.some.injEq] at hr ht
            subst hr
            subst ht
            -- analyze the record branch
            split at heq1
            · simp only [Except.ok.injEq] at heq1
              subst heq1
              exact Or.inr rfl
            · split at heq1
              · exact absurd heq1 (by simp)
              · split at heq1
                · exact absurd heq1 (by simp)
                · simp only [Except.ok.injEq] at heq1
                  subst heq1
                  exact Or.inl rfl
          | succ k =>
            simp only [List.get?_cons_succ] at hr ht
            exact ihidx k r tok hr ht

/-- The outer loop of `nlpy_features` yields one record list per sentence
when it returns normally, each with the per-token invariant. -/
theorem nlpy_features_go_ok (kg : KgraphFn) :
    ∀ (sentences : List (List String)) (docs : List Document)
      (out : List (List TokenRec)),
      nlpy_features_go kg sentences docs = Except.ok out →
      out.length = sentences.length ∧
      ∀ i sent recs, sentences.get? i = some sent → out.get? i = some recs →
        recs.length = sent.length ∧
        ∀ j r tok, recs.get? j = some r → sent.get? j = some tok →
          r.word = tok ∨ r = _voidtoken := by
  intro sentences
  induction sentences with
  | nil =>
    intro docs out h
    simp only [nlpy_features_go, Except.ok.injEq] at h
    subst h
    exact ⟨rfl, by intro i sent recs h1 _; simp at h1⟩
  | cons sent rest ih =>
    intro docs out h
    cases docs with
    | nil => simp [nlpy_features_go] at h
    | cons doc drest =>
      rw [nlpy_features_go] at h
      split at h
      · exact absurd h (by simp)
      · rename_i recs0 heq1
        split at h
        · exact absurd h (by simp)
        · rename_i others heq2
          simp only [Except.ok.injEq] at h
          subst h
          obtain ⟨hlen, hidx⟩ := ih drest others heq2
          refine ⟨by simp [hlen], ?_⟩
          intro i sent' recs hs ho
          cases i with
          | zero =>
            simp only [List.get?_cons_zero, Option.some.injEq] at hs ho
            subst hs
            subst ho
            exact sentence_loop_ok doc kg sent 0 recs0 heq1
          | succ k =>
            simp only [List.get?_cons_succ] at hs ho
            exact hidx k sent' recs hs ho

/-- `mapExcept` preserves length on normal return. -/
theorem mapExcept_ok_length {α β : Type} (f : α → Except String β) :
    ∀ (l : List α) (res : List β), mapExcept f l = Except.ok res →
      res.length = l.length := by
  intro l
  induction l with
  | nil =>
    intro res h
    simp only [mapExcept, Except.ok.injEq] at h
    subst h
    rfl
  | cons a rest ih =>
    intro res h
    rw [mapExcept] at h
    split at h
    · exact absurd h (by simp)
    · rename_i b heq1
      split at h
      · exact absurd h (by simp)
      · rename_i bs heq2
        simp only [Except.ok.injEq] at h
        subst h
        simp [ih bs heq2]

/-- C5 amended: whenever `nlpy_features` returns normally, each sentence
yields exactly one attribute record per raw token, in input order
(sentinels included, none dropped), and whenever `nlpy_sentence_features`
returns normally it yields exactly one feature map per record. -/
theorem C5_counts_when_no_exception :
    (∀ (sentences : List (List String)) (docs : List Document) (kg : KgraphFn)
       (out : List (List TokenRec)),
       nlpy_features sentences docs kg = Except.ok out →
       out.length = sentences.length ∧
       ∀ i sent recs, sentences.get? i = some sent → out.get? i = some recs →
         recs.length = sent.length ∧
         ∀ j r tok, recs.get? j = some r → sent.get? j = some tok →
           r.word = tok ∨ r = _voidtoken) ∧
    (∀ (sentence : List TokenRec) (fms : List FeatureMap),
       nlpy_sentence_features sentence = Except.ok fms →
       fms.length = sentence.length) := by
  constructor
  · intro sentences docs kg out h
    exact nlpy_features_go_ok kg sentences docs out h
  · intro sentence fms h
    have hl := mapExcept_ok_length (_nlpy_word_features sentence)
      (List.range sentence.length) fms h
    simpa using hl

/-- C5 counterexample: on a well-formed input (content = the raw tokens
joined by single spaces, as the data-model invariant requires) the code
raises IndexError before yielding any record list, so the unconditional
per-sentence count claim fails on the code as written. -/
theorem C5_counterexample_wellformed_input_raises :
    nlpy_features [["a"]] [docA] kgEmpty =
      Except.error "string index out of range" := by decide

/-- C5 witness: a run that returns normally (content extends past the last
span) and exhibits the 1:1:1 counts. -/
theorem C5_witness :
    nlpy_features [["hi"]] [docHi] kgEmpty = Except.ok [[recHi]] ∧
    [[recHi]].length = [["hi"]].length ∧
    [recHi].length = (["hi"] : List String).length ∧
    nlpy_sentence_features [recHi] = Except.ok [fmHi] ∧
    [fmHi].length = [recHi].length := by
  have h := C5_counts_when_no_exception
  have h1 : nlpy_features [["hi"]] [docHi] kgEmpty = Except.ok [[recHi]] := by decide
  have h4 : nlpy_sentence_features [recHi] = Except.ok [fmHi] := rfl
  refine ⟨h1, (h.1 _ _ _ _ h1).1, ?_, h4, h.2 [recHi] [fmHi] h4⟩
  exact ((h.1 _ _ _ _ h1).2 0 ["hi"] [recHi] rfl rfl).1

/-- C10: in any successfully assembled feature map, the first token gets
`BOS` and no `-1:`-prefixed keys, the last gets `EOS` and no
`+1:`-prefixed keys, and interior tokens get neither marker but both
neighbour-prefixed key families. -/
theorem C10_boundary_markers :
    ∀ (sentence : List TokenRec) (idx : Nat) (fm : FeatureMap),
      _nlpy_word_features sentence idx = Except.ok fm →
      (idx = 0 →
        fm.lookup "BOS" = some (FVal.b true) ∧
        fm.all (fun p => !("-1:".toList.isPrefixOf p.1.toList)) = true) ∧
      (idx = sentence.length - 1 →
        fm.lookup "EOS" = some (FVal.b true) ∧
        fm.all (fun p => !("+1:".toList.isPrefixOf p.1.toList)) = true) ∧
      (0 < idx → idx < sentence.length - 1 →
        fm.lookup "BOS" = none ∧ fm.lookup "EOS" = none ∧
        fm.any (fun p => "-1:".toList.isPrefixOf p.1.toList) = true ∧
        fm.any (fun p => "+1:".toList.isPrefixOf p.1.toList) = true) := by
  intro sentence idx fm h
  unfold _nlpy_word_features at h
  split at h
  · simp at h
  · rename_i token heqg
    have hidx : idx < sentence.length := by
      rcases List.get?_eq_some.mp heqg with ⟨hh, _⟩
      exact hh
    split at h
    · simp at h
    · rename_i tclass heqt
      split at h
      · simp at h
      · rename_i features1 heq
        split at h
        · -- `+1:` block present: idx < len - 1
          rename_i hlt
          split at h
          · simp at h
          · rename_i token1 heqp
            split at h
            · simp at h
            · rename_i tclass1 heqt1
              simp only [Except.ok.injEq] at h
              subst h
              split at heq
              · -- `-1:` block present: 0 < idx
                rename_i hpos
                split at heq
                · simp at heq
                · rename_i token0 heqp0
                  split at heq
                  · simp at heq
                  · rename_i tclass0 heqt0
                    simp only [Except.ok.injEq] at heq
                    subst heq
                    refine ⟨?_, ?_, ?_⟩
                    · intro h0; exact absurd h0 (by omega)
                    · intro hL; exfalso; omega
                    · intro _ _; exact ⟨rfl, rfl, rfl, rfl⟩
              · -- BOS branch: idx = 0
                rename_i hpos
                simp only [Except.ok.injEq] at heq
                subst heq
                refine ⟨?_, ?_, ?_⟩
                · intro _; exact ⟨rfl, rfl⟩
                · intro hL; exfalso; omega
                · intro h0 _; exact absurd h0 hpos
        · -- EOS branch: idx = len - 1
          rename_i hlt
          simp only [Except.ok.injEq] at h
          subst h
          split at heq
          · rename_i hpos
            split at heq
            · simp at heq
            · rename_i token0 heqp0
              split at heq
              · simp at heq
              · rename_i tclass0 heqt0
                simp only [Except.ok.injEq] at heq
                subst heq
                refine ⟨?_, ?_, ?_⟩
                · intro h0; exact absurd h0 (by omega)
                · intro _; exact ⟨rfl, rfl⟩
                · intro _ hi2; exfalso; omega
          · rename_i hpos
            simp only [Except.ok.injEq] at heq
            subst heq
            refine ⟨?_, ?_, ?_⟩
            · intro _; exact ⟨rfl, rfl⟩
            · intro _; exact ⟨rfl, rfl⟩
            · intro h0 _; exact absurd h0 hpos

/-- C10 witness: concrete first / interior / last feature maps of the
three-record sentence. -/
theorem C10_witness :
    _nlpy_word_features [recAA, recBB, recCC] 0 = Except.ok fmA0 ∧
    fmA0.lookup "BOS" = some (FVal.b true) ∧
    fmA0.all (fun p => !("-1:".toList.isPrefixOf p.1.toList)) = true ∧
    _nlpy_word_features [recAA, recBB, recCC] 2 = Except.ok fmC2 ∧
    fmC2.lookup "EOS" = some (FVal.b true) ∧
    fmC2.all (fun p => !("+1:".toList.isPrefixOf p.1.toList)) = true ∧
    _nlpy_word_features [recAA, recBB, recCC] 1 = Except.ok fmB1 ∧
    fmB1.lookup "BOS" = none ∧ fmB1.lookup "EOS" = none ∧
    fmB1.any (fun p => "-1:".toList.isPrefixOf p.1.toList) = true ∧
    fmB1.any (fun p => "+1:".toList.isPrefixOf p.1.toList) = true := by
  have e0 : _nlpy_word_features [recAA, recBB, recCC] 0 = Except.ok fmA0 := rfl
  have e2 : _nlpy_word_features [recAA, recBB, recCC] 2 = Except.ok fmC2 := rfl
  have e1 : _nlpy_word_features [recAA, recBB, recCC] 1 = Except.ok fmB1 := rfl
  have h0 := (C10_boundary_markers [recAA, recBB, recCC] 0 fmA0 e0).1 rfl
  have h2 := (C10_boundary_markers [recAA, recBB, recCC] 2 fmC2 e2).2.1 rfl
  have h1 := (C10_boundary_markers [recAA, recBB, recCC] 1 fmB1 e1).2.2
    (by decide) (by decide)
  exact ⟨e0, h0.1, h0.2, e2, h2.1, h2.2, e1, h1.1, h1.2.1, h1.2.2.1, h1.2.2.2⟩

/-- C9: label resolution scans for the first entry matching the target
syncon, keeps only the part after the last `.` of its label, and returns
the empty string when nothing matches or there is no annotation set; on
`{syncon 42, label "foo.bar.baz"}` at target 42 it yields `"baz"`. -/
theorem C9_label_resolution :
    (∀ (doc : Document) (syncon : Int),
       _get_label doc syncon = get_label_spec doc syncon) ∧
    _get_label doc42 42 = "baz" :=
  ⟨get_label_eq_spec, by decide⟩

end Nlpyutils
